import Mathlib

/-!
Verification of the password-generator program (src/main.rs).

The program has two parts: a charset builder (in `main`) that concatenates
fixed character classes according to three boolean flags, and a sampler
`generate_password` that draws `length` characters from the charset using
the OS CSPRNG via the rand crate's `SliceRandom::choose`.

We embed the charset constants, the builder, the sampler (parameterised by
an abstract index stream standing for the RNG, with the rand crate's
possible-`None` result of `choose` modelled by `Option`), and the
validation logic of `main`.
-/

namespace PasswordGen

/-- The constant `UPPERCASE` byte slice of src/main.rs, as characters. -/
def UPPERCASE : List Char := "ABCDEFGHIJKLMNOPQRSTUVWXYZ".toList

/-- The constant `LOWERCASE` byte slice of src/main.rs, as characters. -/
def LOWERCASE : List Char := "abcdefghijklmnopqrstuvwxyz".toList

/-- The constant `DIGITS` byte slice of src/main.rs, as characters. -/
def DIGITS : List Char := "0123456789".toList

/-- The constant `SYMBOLS` byte slice of src/main.rs, as characters. -/
def SYMBOLS : List Char := "!@#$%^&*()-_=+[]\x7b\x7d;:,.<>?".toList

/-- The parsed command-line options (struct `Cli` of src/main.rs). -/
structure Cli where
  length : Nat
  no_symbols : Bool
  no_numbers : Bool
  only_letters : Bool
deriving DecidableEq

/-- The rand crate's `SliceRandom::choose`: `None` on an empty slice,
otherwise some element at an RNG-chosen in-range index.  The abstract
draw `idx` is reduced into range; which index is produced per draw is
the concern of the uniformity model below, not of this function. -/
def choose (idx : Nat) (charset : List Char) : Option Char :=
  if charset.isEmpty then none
  else charset[idx % charset.length]?

/-- The `(0..length).map(|_| charset.choose(&mut rng).expect(...)).collect()`
loop of `generate_password`: position `i` uses draw `rng i`; a `None`
from `choose` is the `expect` panic, modelled by `none` for the whole
result. -/
def sampleChars (charset : List Char) (rng : Nat → Nat) (i : Nat) : Nat → Option (List Char)
  | 0 => some []
  | k + 1 =>
    match choose (rng i) charset, sampleChars charset rng (i + 1) k with
    | some c, some cs => some (c :: cs)
    | _, _ => none

/-- `generate_password` of src/main.rs: returns `""` on an empty charset
before any draw, otherwise collects `length` drawn characters; `none`
models the `expect` panic. -/
def generate_password (length : Nat) (charset : List Char) (rng : Nat → Nat) : Option String :=
  if charset.isEmpty then some ""
  else (sampleChars charset rng 0 length).map String.mk

/-- The charset-construction logic of `main` (src/main.rs lines 84-105):
always letters; if `only_letters` nothing more; otherwise digits unless
`no_numbers`, then symbols unless `no_symbols`. -/
def buildCharset (no_symbols no_numbers only_letters : Bool) : List Char :=
  let cs0 := UPPERCASE ++ LOWERCASE
  if only_letters then
    cs0
  else
    let cs1 := if !no_numbers then cs0 ++ DIGITS else cs0
    if !no_symbols then cs1 ++ SYMBOLS else cs1

/-- The charset builder applied to a parsed `Cli`. -/
def build (args : Cli) : List Char :=
  buildCharset args.no_symbols args.no_numbers args.only_letters

/-- Observable outcome of one program run: error exit with a code and a
message on stderr, normal output of the password, or a panic. -/
inductive RunResult where
  | err (code : Nat) (msg : String)
  | ok (pw : String)
  | panicked
deriving DecidableEq

/-- The `main` function of src/main.rs after argument parsing: validate
`length >= 8`, build the charset, guard against an empty charset, then
generate and print the password. -/
def mainRun (args : Cli) (rng : Nat → Nat) : RunResult :=
  if args.length < 8 then
    RunResult.err 1 "Error: Password length must be at least 8 characters."
  else
    let charset := build args
    if charset.isEmpty then
      RunResult.err 1 "Error: Character set is empty. Please check your flags."
    else
      match generate_password args.length charset rng with
      | some pw => RunResult.ok pw
      | none => RunResult.panicked

/-- Modelled from the spec: the per-draw index selection is performed
inside the rand crate (`SliceRandom::choose`), whose source is not part
of this repository.  The spec describes it as rejection sampling: a raw
draw `v` from `[0, 2^32)` is accepted iff it lies below the largest
multiple of the charset length `n`, and an accepted `v` yields index
`v % n`.  `RAND_W` is the size of the raw draw space. -/
def RAND_W : Nat := 2 ^ 32

/-- Modelled from the spec: the acceptance zone of the rejection sampler,
the largest multiple of `n` not exceeding `RAND_W`; raw draws at or
above it are rejected and redrawn. -/
def acceptZone (n : Nat) : Nat := RAND_W - RAND_W % n

/-- Number of accepted raw draws that select index `r` when the charset
has length `n`. -/
def drawCount (n r : Nat) : Nat :=
  ((Finset.range (acceptZone n)).filter (fun v => v % n = r)).card

/-- On a non-empty charset, `choose` always succeeds and returns a member
of the charset. -/
theorem choose_eq_some (idx : Nat) (charset : List Char) (h : charset ≠ []) :
    ∃ c, choose idx charset = some c ∧ c ∈ charset := by
  have hlen : 0 < charset.length := List.length_pos.mpr h
  have hm : idx % charset.length < charset.length := Nat.mod_lt _ hlen
  refine ⟨charset[idx % charset.length], ?_, List.getElem_mem hm⟩
  unfold choose
  rw [if_neg (by simp [h]), List.getElem?_eq_getElem hm]

/-- On a non-empty charset, the sampling loop always succeeds, produces
exactly `k` characters, and each produced character is in the charset. -/
theorem sampleChars_spec (charset : List Char) (rng : Nat → Nat) (h : charset ≠ []) :
    ∀ (k i : Nat), ∃ l, sampleChars charset rng i k = some l ∧
      l.length = k ∧ ∀ c ∈ l, c ∈ charset := by
  intro k
  induction k with
  | zero => exact fun i => ⟨[], rfl, rfl, by simp⟩
  | succ k ih =>
    intro i
    obtain ⟨c, hc, hcm⟩ := choose_eq_some (rng i) charset h
    obtain ⟨l, hl, hlen, hmem⟩ := ih (i + 1)
    refine ⟨c :: l, by simp [sampleChars, hc, hl], by simp [hlen], ?_⟩
    intro x hx
    rcases List.mem_cons.mp hx with rfl | hx
    · exact hcm
    · exact hmem x hx

/-- On a non-empty charset, `generate_password` succeeds with a string of
the requested length whose characters all come from the charset. -/
theorem generate_password_spec (len : Nat) (charset : List Char) (rng : Nat → Nat)
    (h : charset ≠ []) :
    ∃ s, generate_password len charset rng = some s ∧
      s.length = len ∧ ∀ c ∈ s.data, c ∈ charset := by
  obtain ⟨l, hl, hlen, hmem⟩ := sampleChars_spec charset rng h len 0
  refine ⟨String.mk l, ?_, hlen, hmem⟩
  unfold generate_password
  rw [if_neg (by simp [h]), hl]
  rfl

/-- Claim C2: for every length and every non-empty charset,
`generate_password` returns a string of exactly `length` characters, each
a member of the charset. -/
theorem generate_password_length_mem (len : Nat) (charset : List Char) (rng : Nat → Nat)
    (h : charset ≠ []) :
    ∃ s, generate_password len charset rng = some s ∧
      s.length = len ∧ ∀ c ∈ s.data, c ∈ charset :=
  generate_password_spec len charset rng h

theorem generate_password_length_mem_witness :
    ∃ s, generate_password 8 ['a', 'b'] (fun _ => 1) = some s ∧
      s.length = 8 ∧ ∀ c ∈ s.data, c ∈ ['a', 'b'] :=
  generate_password_length_mem 8 ['a', 'b'] (fun _ => 1) (by decide)

/-- Claim C7: with an empty charset, `generate_password` returns the empty
string for every length, produces the same result for every RNG (so no
entropy draw can influence it), and does not panic. -/
theorem generate_password_empty_charset (len : Nat) (rng rng2 : Nat → Nat) :
    generate_password len [] rng = some "" ∧
    generate_password len [] rng = generate_password len [] rng2 :=
  ⟨rfl, rfl⟩

/-- Claim C10: the `.expect` in `generate_password` is unreachable: for
every length, charset and RNG the result is `some`, never the `none` that
models an `expect` panic. -/
theorem generate_password_total (len : Nat) (charset : List Char) (rng : Nat → Nat) :
    (generate_password len charset rng).isSome = true := by
  by_cases h : charset = []
  · subst h; rfl
  · obtain ⟨s, hs, -, -⟩ := generate_password_spec len charset rng h
    simp [hs]

/-- Claim C3 counterexample: the default full pool (no exclusion flags)
has 87 characters, not 72 as the claim states. -/
theorem default_pool_not_72 : (buildCharset false false false).length ≠ 72 := by
  decide

/-- Claim C3 (amended): with no exclusion flags the constructed charset is
the full default pool UPPERCASE ++ LOWERCASE ++ DIGITS ++ SYMBOLS of
exactly 87 characters (26 + 26 + 10 + 25), and every generated password is
drawn only from that pool. -/
theorem default_pool_87 :
    buildCharset false false false = UPPERCASE ++ LOWERCASE ++ DIGITS ++ SYMBOLS ∧
    (buildCharset false false false).length = 87 ∧
    ∀ (len : Nat) (rng : Nat → Nat) (s : String),
      generate_password len (buildCharset false false false) rng = some s →
      ∀ c ∈ s.data, c ∈ buildCharset false false false := by
  refine ⟨by decide, by decide, ?_⟩
  intro len rng s hs c hc
  obtain ⟨s2, hs2, -, hmem⟩ :=
    generate_password_spec len (buildCharset false false false) rng (by decide)
  rw [hs] at hs2
  obtain rfl := Option.some.inj hs2
  exact hmem c hc

theorem default_pool_87_witness :
    generate_password 8 (buildCharset false false false) (fun _ => 0) = some "AAAAAAAA" ∧
    ∀ c ∈ "AAAAAAAA".data, c ∈ buildCharset false false false :=
  ⟨by decide, default_pool_87.2.2 8 (fun _ => 0) "AAAAAAAA" (by decide)⟩

/-- Claim C4: whenever only_letters is set, every character of the
constructed charset is an uppercase or lowercase letter, whatever the
other two flags are. -/
theorem only_letters_charset (ns nn : Bool) :
    ∀ c ∈ buildCharset ns nn true, c ∈ UPPERCASE ∨ c ∈ LOWERCASE := by
  have h : buildCharset ns nn true = UPPERCASE ++ LOWERCASE := rfl
  rw [h]
  intro c hc
  exact List.mem_append.mp hc

theorem only_letters_charset_witness : 'A' ∈ UPPERCASE ∨ 'A' ∈ LOWERCASE :=
  only_letters_charset true true 'A' (by decide)

/-- Claim C6: with no_numbers set and only_letters unset, the charset
contains no digit, and contains every symbol unless no_symbols is also
set. -/
theorem no_numbers_excludes_digits (ns : Bool) :
    (∀ c ∈ buildCharset ns true false, c ∉ DIGITS) ∧
    (ns = false → ∀ c ∈ SYMBOLS, c ∈ buildCharset ns true false) := by
  cases ns
  · exact ⟨by decide, by decide⟩
  · exact ⟨by decide, by decide⟩

theorem no_numbers_excludes_digits_witness :
    ('z' ∉ DIGITS) ∧ ('!' ∈ buildCharset false true false) :=
  ⟨(no_numbers_excludes_digits false).1 'z' (by decide),
   (no_numbers_excludes_digits false).2 rfl '!' (by decide)⟩

/-- Claim C8: for every flag combination the charset is the canonical
concatenation: Uppercase, then Lowercase, then Digits when included, then
Symbols when included, each class in its constant order. -/
theorem charset_canonical_order (ns nn ol : Bool) :
    buildCharset ns nn ol =
      UPPERCASE ++ LOWERCASE ++
        (if ol || nn then [] else DIGITS) ++
        (if ol || ns then [] else SYMBOLS) := by
  cases ns <;> cases nn <;> cases ol <;> rfl

/-- Claim C9: charset construction is deterministic: two runs of the
builder with equal options produce identical charsets. -/
theorem build_deterministic (o1 o2 : Cli) (h : o1 = o2) : build o1 = build o2 := by
  rw [h]

theorem build_deterministic_witness :
    build ⟨16, false, false, false⟩ = build ⟨16, false, false, false⟩ :=
  build_deterministic ⟨16, false, false, false⟩ ⟨16, false, false, false⟩ rfl

/-- Claim C5: when the requested length is below 8 or the constructed
charset is empty, the program exits with an error (code 1, non-zero), the
outcome is the same for every RNG (so the error precedes any entropy
draw), and no password output is produced. -/
theorem config_error_no_output (args : Cli) (rng rng2 : Nat → Nat)
    (h : args.length < 8 ∨ build args = []) :
    (∃ msg, mainRun args rng = RunResult.err 1 msg) ∧
    mainRun args rng = mainRun args rng2 ∧
    ∀ pw, mainRun args rng ≠ RunResult.ok pw := by
  by_cases hl : args.length < 8
  · have e : ∀ r, mainRun args r =
        RunResult.err 1 "Error: Password length must be at least 8 characters." := by
      intro r
      unfold mainRun
      rw [if_pos hl]
    refine ⟨⟨_, e rng⟩, by rw [e rng, e rng2], ?_⟩
    intro pw hpw
    rw [e rng] at hpw
    exact RunResult.noConfusion hpw
  · rcases h with h | h
    · exact absurd h hl
    · have e : ∀ r, mainRun args r =
          RunResult.err 1 "Error: Character set is empty. Please check your flags." := by
        intro r
        simp [mainRun, hl, h]
      refine ⟨⟨_, e rng⟩, by rw [e rng, e rng2], ?_⟩
      intro pw hpw
      rw [e rng] at hpw
      exact RunResult.noConfusion hpw

theorem config_error_no_output_witness :
    (∃ msg, mainRun ⟨7, false, false, false⟩ (fun _ => 0) = RunResult.err 1 msg) ∧
    mainRun ⟨7, false, false, false⟩ (fun _ => 0) =
      mainRun ⟨7, false, false, false⟩ (fun _ => 1) ∧
    ∀ pw, mainRun ⟨7, false, false, false⟩ (fun _ => 0) ≠ RunResult.ok pw :=
  config_error_no_output ⟨7, false, false, false⟩ (fun _ => 0) (fun _ => 1)
    (Or.inl (by decide))

/-- Below a multiple `n * k`, the numbers congruent to `r` modulo `n` are
exactly the image of `[0, k)` under `i ↦ n * i + r`. -/
theorem filter_mod_eq_image (n k r : Nat) (hr : r < n) :
    (Finset.range (n * k)).filter (fun v => v % n = r) =
      (Finset.range k).image (fun i => n * i + r) := by
  ext v
  simp only [Finset.mem_filter, Finset.mem_range, Finset.mem_image]
  constructor
  · rintro ⟨hv, hm⟩
    refine ⟨v / n, Nat.div_lt_of_lt_mul hv, ?_⟩
    conv_rhs => rw [← Nat.div_add_mod v n]
    rw [hm]
  · rintro ⟨i, hi, rfl⟩
    refine ⟨?_, ?_⟩
    · have h1 : n * i + r < n * (i + 1) := by
        rw [Nat.mul_add, Nat.mul_one]
        exact Nat.add_lt_add_left hr _
      exact lt_of_lt_of_le h1 (Nat.mul_le_mul_left n hi)
    · rw [Nat.add_comm, Nat.add_mul_mod_self_left]
      exact Nat.mod_eq_of_lt hr

/-- Below a multiple `n * k`, each residue `r < n` occurs exactly `k`
times: the key counting fact behind rejection-sampling uniformity. -/
theorem filter_mod_card (n k r : Nat) (hr : r < n) :
    ((Finset.range (n * k)).filter (fun v => v % n = r)).card = k := by
  have hn : 0 < n := lt_of_le_of_lt (Nat.zero_le r) hr
  rw [filter_mod_eq_image n k r hr]
  rw [Finset.card_image_of_injective _ ?inj, Finset.card_range]
  case inj =>
    intro a b hab
    have h2 : n * a = n * b := Nat.add_right_cancel hab
    exact Nat.eq_of_mul_eq_mul_left hn h2

/-- Claim C1: the rejection sampler is distributionally equal to a
reference uniform sampler over the charset indices: for every charset
length `n ≥ 1` and every index `r < n`, exactly `RAND_W / n` accepted raw
draws select `r` — the same count for every index, so each index carries
probability `drawCount n r / acceptZone n = 1 / n`, with no modulo
bias. -/
theorem choose_index_uniform (n r : Nat) (_hn : 0 < n) (hr : r < n) :
    drawCount n r = RAND_W / n ∧ drawCount n r * n = acceptZone n := by
  have hz : acceptZone n = n * (RAND_W / n) := by
    have h := Nat.div_add_mod RAND_W n
    unfold acceptZone
    omega
  have h1 : drawCount n r = RAND_W / n := by
    unfold drawCount
    rw [hz, filter_mod_card n (RAND_W / n) r hr]
  exact ⟨h1, by rw [h1, hz, Nat.mul_comm]⟩

theorem choose_index_uniform_witness :
    drawCount 87 3 = RAND_W / 87 ∧ drawCount 87 3 * 87 = acceptZone 87 :=
  choose_index_uniform 87 3 (by decide) (by decide)

end PasswordGen
